import Mathlib

/- Verification of the vertical-file creation pipeline of
   `dse-static-pipeline/create_verticals.py`: the CONLL-U formatter
   `run_udp`, the spacy formatter `run_spacy`, paragraph segmentation and
   post-processing in `process_tei`, and the retry loop in
   `create_vertical`.  Python strings are modelled on `List Char`; every
   emitted line of a vertical file is one `VLine`, and the final file text
   is the rendering of the line list, one `"\n"` after each line exactly as
   the Python code appends them. -/

/-- The reserved paragraph sentinel, `PAR_SEP = "PaRaSeP"` (line 11). -/
def PAR_SEP : String := "PaRaSeP"

/-- Whitespace test used to model Python's `str.strip` / regex `\s`
    (space, tab, CR, LF; Python additionally strips `\f`/`\v`, which no
    input here contains). -/
def wsChar (c : Char) : Bool := c.isWhitespace

/-- Does the string (as a char list) start with a whitespace character?
    Models `re.match("\\s", text)`; an empty string has no match. -/
def startsWs : List Char → Bool
  | [] => false
  | c :: _ => wsChar c

/-- Python `str.split(sep)` for a one-character separator: keeps empty
    chunks, `"".split(sep) == [""]`. -/
def splitOnChar (sep : Char) : List Char → List (List Char)
  | [] => [[]]
  | c :: cs =>
    let r := splitOnChar sep cs
    if c = sep then [] :: r else (c :: r.headD []) :: r.tail

/-- Is `p` a leading segment of `l`?  Helper for substring search. -/
def leadsL : List Char → List Char → Bool
  | [], _ => true
  | _ :: _, [] => false
  | p :: ps, x :: xs => p = x && leadsL ps xs

/-- Python's substring test `pat in s` (for the fixed non-empty patterns
    used by the script). -/
def hasSub (pat : List Char) : List Char → Bool
  | [] => leadsL pat []
  | x :: xs => leadsL pat (x :: xs) || hasSub pat xs

/-- The characters of the feature flag `"SpaceAfter=No"` looked up in the
    tenth CONLL-U field (line 63). -/
def spaceAfterNoPat : List Char := "SpaceAfter=No".data

/-- One line of a vertical file: the structural tags and the
    tab-separated token lines the two formatters append. -/
inductive VLine where
  | pOpen : VLine
  | pClose : VLine
  | sOpen : VLine
  | sClose : VLine
  | glue : VLine
  | tok (text lemma_ pos_ suffix : String) : VLine
deriving DecidableEq

/-- Is this line a token line? -/
def VLine.isTokB : VLine → Bool
  | .tok _ _ _ _ => true
  | _ => false

/-- Is this line allowed inside a sentence (token line or glue marker)? -/
def VLine.isContentB : VLine → Bool
  | .tok _ _ _ _ => true
  | .glue => true
  | _ => false

/-- The text of one vertical line, without the trailing newline. -/
def renderLine : VLine → String
  | .pOpen => "<p>"
  | .pClose => "</p>"
  | .sOpen => "<s>"
  | .sClose => "</s>"
  | .glue => "<g/>"
  | .tok t l p sfx => t ++ "\t" ++ l ++ "\t" ++ p ++ sfx

/-- The vertical text of a line list: each line followed by `"\n"`,
    exactly as the Python code appends `...\n` chunks to `vertical`. -/
def renderLines : List VLine → String
  | [] => ""
  | l :: ls => renderLine l ++ "\n" ++ renderLines ls

/-- Python `s.count("\n")`. -/
def countNL (s : String) : Nat := s.data.count '\n'

/-- The four lines `</s> </p> <p> <s>` emitted for a paragraph break
    (lines 60 and 97). -/
def parBreak : List VLine :=
  [VLine.sClose, VLine.pClose, VLine.pOpen, VLine.sOpen]

/-- The lines contributed by one line of the CONLL-U payload in the loop
    body of `run_udp` (lines 49-64): comment lines, blank lines and lines
    with fewer than 10 tab-separated fields are skipped; a record whose
    surface form (field 1) equals the sentinel becomes a paragraph break;
    any other record becomes one token line, followed by a glue line when
    field 9 contains `SpaceAfter=No`. -/
def udpChunk (suffix : String) (line : List Char) : List VLine :=
  if line.head? = some '#' ∨ line.all wsChar then []
  else if (splitOnChar '\t' line).length < 10 then []
  else if (splitOnChar '\t' line).getD 1 [] = PAR_SEP.data then parBreak
  else
    VLine.tok ⟨(splitOnChar '\t' line).getD 1 []⟩ ⟨(splitOnChar '\t' line).getD 2 []⟩
        ⟨(splitOnChar '\t' line).getD 3 []⟩ suffix ::
      (if hasSub spaceAfterNoPat ((splitOnChar '\t' line).getD 9 []) then [VLine.glue]
       else [])

/-- Concatenation of the images of a list-valued map, in order: the lines
    a loop appends are the concatenation of the lines each iteration
    appends. -/
def catMap {α β : Type} (f : α → List β) : List α → List β
  | [] => []
  | l :: ls => f l ++ catMap f ls

/-- The whole of `run_udp` (lines 48-67) as a line list: open `<p> <s>`,
    process every `"\n"`-separated line of the payload, close `</s> </p>`. -/
def runUdpLines (result : String) (suffix : String) : List VLine :=
  VLine.pOpen :: VLine.sOpen ::
    (catMap (udpChunk suffix) (splitOnChar '\n' result.data) ++
      [VLine.sClose, VLine.pClose])

/-- Scanner for left-to-right non-overlapping removal of adjacent
    `o`,`c` line pairs: `held` records whether the previous line was an
    `o` still waiting for its possible `c`. -/
def stripGo (o c : VLine) (held : Bool) : List VLine → List VLine
  | [] => if held then [o] else []
  | y :: rest =>
    if held then
      if y = c then stripGo o c false rest
      else if y = o then o :: stripGo o c true rest
      else o :: y :: stripGo o c false rest
    else
      if y = o then stripGo o c true rest
      else y :: stripGo o c false rest

/-- Left-to-right non-overlapping removal of adjacent `o`,`c` line pairs:
    the line-level meaning of Python's `processed.replace(o+"\n"+c+"\n", "")`
    (line 147), given that no single vertical line ever equals a structural
    tag unless it was emitted as one. -/
def stripPair (o c : VLine) (l : List VLine) : List VLine := stripGo o c false l

/-- The post-processing of `process_tei` (line 147): first delete every
    empty `<s>`..`</s>` pair, then every empty `<p>`..`</p>` pair. -/
def postProcess (l : List VLine) : List VLine :=
  stripPair VLine.pOpen VLine.pClose (stripPair VLine.sOpen VLine.sClose l)

/-- One spacy token, as `run_spacy` reads it: surface text, lemma,
    coarse tag, the sentence it belongs to (as an identifier, standing for
    `token.sent`), and the `is_punct` / `is_space` flags. -/
structure SpacyTok where
  text : String
  lemma_ : String
  pos_ : String
  sentId : Nat
  isPunct : Bool
  isSpace : Bool
deriving DecidableEq

/-- The loop body plus closing of `run_spacy` (lines 77-102).  `text` is
    the remaining raw input (the Python variable `text`, consumed token by
    token), `sent` the previously seen sentence (`None` before the first
    non-space token).  Per non-space token: emit `</s> <s>` when the
    sentence changed; emit a glue line when the remaining raw text does not
    start with whitespace and the token is punctuation; strip leading
    whitespace and drop `len(token.text)` characters; then emit either a
    paragraph break (sentinel token) or the token line, whose lemma is the
    surface form itself for punctuation. -/
def runSpacyGo (suffix : String) : List SpacyTok → List Char → Option Nat → List VLine
  | [], _, _ => [VLine.sClose, VLine.pClose]
  | t :: ts, text, sent =>
    if t.isSpace then runSpacyGo suffix ts text sent
    else
      (if sent.getD t.sentId = t.sentId then [] else [VLine.sClose, VLine.sOpen]) ++
        ((if !startsWs text && t.isPunct then [VLine.glue] else []) ++
          ((if t.text = PAR_SEP then parBreak
            else [VLine.tok t.text (if t.isPunct then t.text else t.lemma_) t.pos_ suffix]) ++
            runSpacyGo suffix ts ((text.dropWhile wsChar).drop t.text.length)
              (some t.sentId)))

/-- The whole of `run_spacy` (lines 70-102) as a line list, for a given
    token stream and raw input text. -/
def runSpacyLines (toks : List SpacyTok) (raw : String) (suffix : String) : List VLine :=
  VLine.pOpen :: VLine.sOpen :: runSpacyGo suffix toks raw.data none

/-- Line 73 of `run_spacy`: `nlp = spacy.load(cfg["models"][lang])` runs
    unconditionally on every call, so one call performs exactly this list
    of model loads. -/
def spacyLoadsForCall (models : String → String) (lang : String) : List String :=
  [models lang]

/-- The model loads a whole run performs when the spacy backend processes
    the given documents (one `(lang, tokens, raw)` triple per document):
    `run_spacy` is entered once per document. -/
def corpusSpacyLoads (models : String → String)
    (docs : List (String × List SpacyTok × String)) : List String :=
  catMap (fun d => spacyLoadsForCall models d.1) docs

/-- Result of the retry loop of `create_vertical` for one document:
    whether processing succeeded, how many attempts ran, and how many
    backoff sleeps were performed. -/
structure FetchRes where
  succ : Bool
  attempts : Nat
  sleeps : Nat
deriving DecidableEq

/-- The loop `for i in range(10): try: if process_tei(...): break
    except: print(e); sleep(5)` (lines 175-181), against a fetch that
    deterministically fails on the first `failN` attempts: `fuel` is the
    number of loop iterations left, `a` attempts made so far, `s` sleeps
    so far.  A successful attempt breaks out before the sleep; a failed
    attempt logs, sleeps and retries. -/
def fetchGo (failN : Nat) : Nat → Nat → Nat → FetchRes
  | 0, a, s => ⟨false, a, s⟩
  | fuel + 1, a, s =>
    if a < failN then fetchGo failN fuel (a + 1) (s + 1)
    else ⟨true, a + 1, s⟩

/-- One document's retry loop: up to 10 attempts. -/
def runFetch (failN : Nat) : FetchRes := fetchGo failN 10 0 0

/-- The document loop of `create_vertical` (lines 173-182): every
    document gets its own retry loop, and the loop continues with the next
    document whether or not the previous one succeeded - exhaustion is
    caught inside and never escapes. -/
def corpusRun : List Nat → List Bool
  | [] => []
  | n :: rest => (runFetch n).succ :: corpusRun rest

/-- A write to the corpus file observable in `process_tei` /
    `create_vertical`. -/
inductive WEvent where
  | chapOpen (id lp : String) : WEvent
  | body (s : String) : WEvent
  | chapClose : WEvent
deriving DecidableEq

/-- Where one attempt of `process_tei` fails, if it fails.  `fetchFail`
    is an exception at `requests.get` (line 108) and `parseFail` one at
    `ET.fromstring` (line 119), both before anything is written;
    `annotateFail` is an exception inside `run_udp`/`run_spacy`
    (lines 143/145), which happens after the `<chapter ...>` opening
    marker has already been written (line 122). -/
inductive Stage where
  | fetchFail : Stage
  | parseFail : Stage
  | annotateFail : Stage
  | ok : Stage
deriving DecidableEq

/-- The writes one attempt of `process_tei` performs and whether it
    returns normally: the chapter opening marker is written before the
    annotation call, the body and closing marker after it (lines 122,
    150, 151). -/
def processTeiTrace (stage : Stage) (id lp bodyStr : String) : List WEvent × Bool :=
  match stage with
  | Stage.fetchFail => ([], false)
  | Stage.parseFail => ([], false)
  | Stage.annotateFail => ([WEvent.chapOpen id lp], false)
  | Stage.ok => ([WEvent.chapOpen id lp, WEvent.body bodyStr, WEvent.chapClose], true)

/-- The writes the retry loop (lines 175-181) accumulates in the corpus
    file for one document: `plan i` says how attempt `i` goes; a failed
    attempt's writes stay in the file and the next attempt appends its
    own. -/
def retryLoopTrace (plan : Nat → Stage) (id lp bodyStr : String) : Nat → Nat → List WEvent
  | 0, _ => []
  | fuel + 1, i =>
    let r := processTeiTrace (plan i) id lp bodyStr
    if r.2 then r.1 else r.1 ++ retryLoopTrace plan id lp bodyStr fuel (i + 1)

/-- All corpus-file writes one document causes (up to 10 attempts). -/
def docTrace (plan : Nat → Stage) (id lp bodyStr : String) : List WEvent :=
  retryLoopTrace plan id lp bodyStr 10 0

/-- Number of chapter opening markers in a write trace. -/
def countChapOpen (tr : List WEvent) : Nat :=
  tr.countP (fun e => match e with | WEvent.chapOpen _ _ => true | _ => false)

/-- Number of chapter closing markers in a write trace. -/
def countChapClose (tr : List WEvent) : Nat :=
  tr.countP (fun e => match e with | WEvent.chapClose => true | _ => false)

/-- Python `str.strip()`: drop leading and trailing whitespace. -/
def pyStrip (s : String) : String :=
  ⟨((s.data.dropWhile wsChar).reverse.dropWhile wsChar).reverse⟩

/-- Lines 128-129 of `process_tei`: `element.replace("\n", " ")
    .replace("\r", " ").strip()` applied to one extracted text node. -/
def normalizePart (s : String) : String :=
  pyStrip ⟨s.data.map (fun c => if c = '\n' then ' ' else if c = '\r' then ' ' else c)⟩

/-- The span loop of `process_tei` (lines 124-138) over `(text, block)`
    spans, where `block` stands for the enclosing paragraph returned by
    `get_paragraph`: spans normalizing to the empty string are skipped;
    `lastP` starts as `None` and is initialized to the first kept span's
    block; a block change appends `" PaRaSeP "` before the span text.
    Returns the accumulated text and the number of sentinel insertions. -/
def segmentGo : List (String × Nat) → Option Nat → String → Nat → String × Nat
  | [], _, text, k => (text, k)
  | sp :: rest, lastP, text, k =>
    if normalizePart sp.1 = "" then segmentGo rest lastP text k
    else if sp.2 ≠ lastP.getD sp.2 then
      segmentGo rest (some sp.2)
        (text ++ " " ++ PAR_SEP ++ " " ++ normalizePart sp.1 ++ " ") (k + 1)
    else segmentGo rest (some sp.2) (text ++ normalizePart sp.1 ++ " ") k

/-- The Paragraph Segmenter: accumulated text plus sentinel-insertion
    count for a span list. -/
def segmentSpans (spans : List (String × Nat)) : String × Nat :=
  segmentGo spans none "" 0

/-- Number of adjacent block changes after a first block `a`. -/
def blockChangesFrom (a : Nat) : List Nat → Nat
  | [] => 0
  | b :: rest => (if a = b then 0 else 1) + blockChangesFrom b rest

/-- Number of positions at which a block differs from its predecessor. -/
def blockChanges : List Nat → Nat
  | [] => 0
  | a :: rest => blockChangesFrom a rest

/-- Python `"\n".join(...)` on char lists. -/
def joinNL : List (List Char) → List Char
  | [] => []
  | l :: rest =>
    l ++ (match rest with | [] => [] | _ :: _ => '\n' :: joinNL rest)

/-- A stub annotation backend for end-to-end examples: tokenize on single
    spaces (dropping empty chunks) and return one well-formed 10-field
    CONLL-U record per token, with the surface form also used as lemma. -/
def stubConllu (text : String) : String :=
  ⟨joinNL (((splitOnChar ' ' text.data).filter (fun w => w ≠ [])).map
    (fun w => "1\t".data ++ w ++ "\t".data ++ w ++ "\tX\t_\t_\t_\t_\t_\t_".data))⟩

/-- Extractor+Segmenter+stub backend+Formatter+post-processing, the
    composition `process_tei` performs with the udp backend: segment the
    spans, strip the text (line 143), annotate with the stub, format and
    post-process. -/
def udpPipeline (spans : List (String × Nat)) (suffix : String) : List VLine :=
  postProcess (runUdpLines (stubConllu (pyStrip (segmentSpans spans).1)) suffix)

/-- The corpus-level statistics `process_tei` accumulates into the `time`
    dict: cumulative download seconds, nlp seconds and token count
    (durations are modelled as rationals). -/
structure RunStats where
  download : ℚ
  nlp : ℚ
  tokens : Nat

/-- Lines 148 and 154-156 of `process_tei`: the download and nlp
    durations of this document are added, and `tokens` grows by
    `processed.count("\n")` where `processed` is the post-processed
    vertical text of this document. -/
def processTeiStats (st : RunStats) (dl nl : ℚ) (processed : String) : RunStats :=
  { download := st.download + dl, nlp := st.nlp + nl,
    tokens := st.tokens + countNL processed }

/-- An adjacent pair of output lines is allowed when it is neither an
    empty sentence (`<s>` directly followed by `</s>`) nor an empty
    paragraph (`<p>` directly followed by `</p>`). -/
def OkPair (x y : VLine) : Prop :=
  ¬(x = VLine.sOpen ∧ y = VLine.sClose) ∧ ¬(x = VLine.pOpen ∧ y = VLine.pClose)

/-- A line list with no empty sentence and no empty paragraph pair. -/
def NoEmptyAdj (l : List VLine) : Prop := List.Chain' OkPair l

/-- Every glue line directly follows a token line. -/
def GlueAfterTok (x y : VLine) : Prop := y = VLine.glue → x.isTokB = true

/-- Every glue line directly precedes a token line. -/
def GlueBeforeTok (x y : VLine) : Prop := x = VLine.glue → y.isTokB = true

/-- Does this payload line survive the skips of `run_udp` and carry
    `SpaceAfter=No` on a real (non-sentinel) token?  Exactly these records
    make `run_udp` emit a glue line. -/
def udpGlueRec (line : List Char) : Bool :=
  if line.head? = some '#' ∨ line.all wsChar then false
  else if (splitOnChar '\t' line).length < 10 then false
  else if (splitOnChar '\t' line).getD 1 [] = PAR_SEP.data then false
  else hasSub spaceAfterNoPat ((splitOnChar '\t' line).getD 9 [])

/-- Does this payload line survive the skips of `run_udp` and carry the
    paragraph sentinel as its surface form?  Exactly these records make
    `run_udp` emit a paragraph break. -/
def udpSentRec (line : List Char) : Bool :=
  if line.head? = some '#' ∨ line.all wsChar then false
  else if (splitOnChar '\t' line).length < 10 then false
  else decide ((splitOnChar '\t' line).getD 1 [] = PAR_SEP.data)

/-- The stub backend response of the end-to-end example: two sentences
    `Hello world .` and `Foo .` (blank-line separated), the paragraph
    sentinel between them, `SpaceAfter=No` on the final punctuation of
    each sentence. -/
def examplePayload : String :=
  "1\tHello\thello\tINTJ\t_\t_\t_\t_\t_\t_\n" ++
  "2\tworld\tworld\tNOUN\t_\t_\t_\t_\t_\t_\n" ++
  "3\t.\t.\tPUNCT\t_\t_\t_\t_\t_\tSpaceAfter=No\n\n" ++
  "1\tPaRaSeP\tPaRaSeP\tX\t_\t_\t_\t_\t_\t_\n\n" ++
  "1\tFoo\tfoo\tNOUN\t_\t_\t_\t_\t_\t_\n" ++
  "2\t.\t.\tPUNCT\t_\t_\t_\t_\t_\tSpaceAfter=No"

/-- The landing-page reference of the end-to-end example document. -/
def exampleLp : String := "https://example.org/doc.html"

/-- The chapter body the end-to-end example is claimed to produce: two
    paragraphs, one sentence each, token lines only. -/
def exampleClaimed : String :=
  "<p>\n<s>\nHello\thello\tINTJ\t" ++ exampleLp ++ "\nworld\tworld\tNOUN\t" ++
  exampleLp ++ "\n.\t.\tPUNCT\t" ++ exampleLp ++ "\n</s>\n</p>\n<p>\n<s>\nFoo\tfoo\tNOUN\t" ++
  exampleLp ++ "\n.\t.\tPUNCT\t" ++ exampleLp ++ "\n</s>\n</p>\n"

/-- The chapter body the code actually produces on the end-to-end
    example: the same, except that a `<g/>` glue line follows each
    sentence-final punctuation token line, because the backend reported
    `SpaceAfter=No` there and line 63-64 of `run_udp` emits a glue marker
    for every such record. -/
def exampleActual : String :=
  "<p>\n<s>\nHello\thello\tINTJ\t" ++ exampleLp ++ "\nworld\tworld\tNOUN\t" ++
  exampleLp ++ "\n.\t.\tPUNCT\t" ++ exampleLp ++ "\n<g/>\n</s>\n</p>\n<p>\n<s>\nFoo\tfoo\tNOUN\t" ++
  exampleLp ++ "\n.\t.\tPUNCT\t" ++ exampleLp ++ "\n<g/>\n</s>\n</p>\n"

/-- A CONLL-U payload with two token records separated by a blank line,
    i.e. two sentences in one paragraph. -/
def twoSentPayload : String :=
  "1\tA\ta\tX\t_\t_\t_\t_\t_\t_\n\n1\tB\tb\tY\t_\t_\t_\t_\t_\t_"

/-- Two adjacent non-punctuation spacy tokens with no whitespace between
    them in the raw text `"ab"`. -/
def abToks : List SpacyTok :=
  [⟨"a", "a", "X", 0, false, false⟩, ⟨"b", "b", "X", 0, false, false⟩]

/-- An attempt plan whose first attempt fails inside the annotation
    backend and whose second attempt succeeds. -/
def retryPlan : Nat → Stage := fun i => [Stage.annotateFail].getD i Stage.ok

/-- A single extracted span, in a single enclosing block, whose genuine
    text contains the word `PaRaSeP`. -/
def collisionSpans : List (String × Nat) := [("a PaRaSeP b", 0)]

/-- The spacy token stream of the same genuine single-paragraph text
    `a PaRaSeP b`: three ordinary word tokens in one sentence, the middle
    one a document word that happens to equal the reserved sentinel. -/
def collisionToks : List SpacyTok :=
  [⟨"a", "a", "X", 0, false, false⟩,
   ⟨"PaRaSeP", "PaRaSeP", "X", 0, false, false⟩,
   ⟨"b", "b", "X", 0, false, false⟩]

/-- Does `run_udp` skip this payload line (comment, blank, or fewer than
    10 tab-separated fields)? -/
def udpSkipRec (line : List Char) : Bool :=
  if line.head? = some '#' ∨ line.all wsChar then true
  else if (splitOnChar '\t' line).length < 10 then true
  else false

/-- One paragraph group rendered as a vertical segment:
    `<p> <s>` content `</s> </p>`. -/
def segP (g : List VLine) : List VLine :=
  VLine.pOpen :: VLine.sOpen :: (g ++ [VLine.sClose, VLine.pClose])

/-- The paragraph groups of a CONLL-U payload: the content chunks between
    consecutive sentinel records.  `run_udp`'s output is exactly the
    concatenation of the `segP` segments of these groups. -/
def udpGroups (suffix : String) : List (List Char) → List (List VLine)
  | [] => [[]]
  | l :: ls =>
    if udpSkipRec l then udpGroups suffix ls
    else if udpSentRec l then [] :: udpGroups suffix ls
    else
      (udpChunk suffix l ++ (udpGroups suffix ls).headD []) ::
        (udpGroups suffix ls).tail

/-- The whitespace-padded concatenation a spacy document aligns against:
    each token is preceded by its (possibly empty) whitespace padding. -/
def padsText (pairs : List (String × SpacyTok)) : List Char :=
  catMap (fun pt => pt.1.data ++ pt.2.text.data) pairs

/-- A model table mapping every language to one spacy model name. -/
def exampleModels : String → String := fun _ => "de_core_news_sm"

/-- Two documents of the same language processed by the spacy backend. -/
def twoDocs : List (String × List SpacyTok × String) :=
  [("de", [], "x"), ("de", [], "y")]

/-- C1: refutation of the claimed end-to-end output.  On the two-paragraph
    example with `SpaceAfter=No` reported on each sentence-final
    punctuation token, the formatted chapter body is not the claimed
    string (which has token and structural lines only): the code emits a
    glue line after each flagged token. -/
theorem udp_example_claimed_output_refuted :
    renderLines (postProcess (runUdpLines examplePayload ("\t" ++ exampleLp)))
      ≠ exampleClaimed := by decide

set_option maxRecDepth 40000 in
/-- C1 (amended): the chapter body on the end-to-end example is exactly
    the claimed string with one additional glue line directly after each
    sentence-final punctuation token line. -/
theorem udp_example_actual_output :
    renderLines (postProcess (runUdpLines examplePayload ("\t" ++ exampleLp)))
      = exampleActual := by decide

/-- C3: on a payload with two token records separated by a blank line
    (two sentences in one paragraph), `run_udp` skips the blank line
    (line 50) and emits no `</s>`/`<s>` pair between the two token lines:
    the whole chapter body is a single sentence element containing both
    tokens, so blank-line sentence separators do not produce sentence
    boundaries in the output. -/
theorem udp_blank_line_no_sentence_break :
    postProcess (runUdpLines twoSentPayload ("\t" ++ exampleLp)) =
      [VLine.pOpen, VLine.sOpen,
       VLine.tok "A" "a" "X" ("\t" ++ exampleLp),
       VLine.tok "B" "b" "Y" ("\t" ++ exampleLp),
       VLine.sClose, VLine.pClose] ∧
    (postProcess (runUdpLines twoSentPayload ("\t" ++ exampleLp))).count VLine.sOpen = 1 := by
  decide

/-- C4: refutation of glue-marker placement in the spacy backend.  Two
    adjacent non-punctuation tokens with zero intervening whitespace in
    the raw text `"ab"` produce no glue line at all, because line 90 of
    `run_spacy` emits a glue marker only when the token is punctuation. -/
theorem spacy_glue_nonpunct_counterexample :
    runSpacyLines abToks "ab" "" =
      [VLine.pOpen, VLine.sOpen, VLine.tok "a" "a" "X" "",
       VLine.tok "b" "b" "X" "", VLine.sClose, VLine.pClose] ∧
    (runSpacyLines abToks "ab" "").count VLine.glue = 0 := by decide

/-- C5: a first attempt that fails inside the annotation backend has
    already written the `<chapter ...>` opening marker (line 122 runs
    before the backend call of line 143); the retrying second attempt
    writes a second one, so the document's corpus-file trace holds two
    chapter opening markers and only one closing marker. -/
theorem chapter_marker_duplicated_on_retry :
    docTrace retryPlan "c" "u" "B" =
      [WEvent.chapOpen "c" "u", WEvent.chapOpen "c" "u",
       WEvent.body "B", WEvent.chapClose] ∧
    countChapOpen (docTrace retryPlan "c" "u" "B") = 2 ∧
    countChapClose (docTrace retryPlan "c" "u" "B") = 1 := by decide

/-- C7: refutation of "only Segmenter-inserted sentinels trigger paragraph
    breaks", in both backends.  A single span in a single block - so the
    Segmenter inserts zero sentinels - whose genuine text contains the
    word `PaRaSeP` still yields two paragraphs through the udp formatter:
    the sentinel is detected by exact string match (line 59).  The spacy
    formatter does the same (line 96): the token stream of that genuine
    text also produces two `<p>` elements. -/
theorem sentinel_vocabulary_collision_counterexample :
    (segmentSpans collisionSpans).2 = 0 ∧
    (udpPipeline collisionSpans ("\t" ++ exampleLp)).count VLine.pOpen = 2 ∧
    (runSpacyLines collisionToks "a PaRaSeP b" ("\t" ++ exampleLp)).count
        VLine.pOpen = 2 := by decide

/-- C9: refutation of language-model caching.  Processing two documents
    of the same language with the spacy backend performs two model loads,
    because line 73 calls `spacy.load` unconditionally on every
    invocation: there is no cache. -/
theorem spacy_reload_counterexample :
    corpusSpacyLoads exampleModels twoDocs =
      ["de_core_news_sm", "de_core_news_sm"] ∧
    (corpusSpacyLoads exampleModels twoDocs).length = 2 := by decide

set_option maxRecDepth 40000 in
/-- C10: refutation of the token-count statistic.  On the end-to-end
    example document the statistics gain `processed.count("\n") = 15`,
    while the formatted output holds only 5 token lines - the counter also
    counts every structural and glue line (line 148 counts newlines). -/
theorem token_stat_counts_all_lines_counterexample :
    (processTeiStats ⟨0, 0, 0⟩ 0 0
        (renderLines (postProcess (runUdpLines examplePayload ("\t" ++ exampleLp))))).tokens
      = 15 ∧
    (postProcess (runUdpLines examplePayload ("\t" ++ exampleLp))).countP VLine.isTokB = 5 := by
  decide

/-- Closed form of the retry loop: with `a ≤ failN` attempts already
    failed, either the remaining fuel reaches attempt `failN` (success
    after `failN + 1` attempts in total, one sleep per failure), or the
    fuel runs out with every attempt failed and slept after. -/
theorem fetchGo_closed (failN : Nat) :
    ∀ (fuel a s : Nat), a ≤ failN →
      fetchGo failN fuel a s =
        if failN < a + fuel then ⟨true, failN + 1, s + (failN - a)⟩
        else ⟨false, a + fuel, s + fuel⟩ := by
  intro fuel
  induction fuel with
  | zero =>
    intro a s ha
    rw [fetchGo, if_neg (by omega)]
    simp
  | succ n ih =>
    intro a s ha
    by_cases hlt : a < failN
    · rw [fetchGo, if_pos hlt, ih (a + 1) (s + 1) hlt]
      by_cases hc : failN < a + (n + 1)
      · rw [if_pos (by omega), if_pos hc]
        have : s + 1 + (failN - (a + 1)) = s + (failN - a) := by omega
        rw [this]
      · rw [if_neg (by omega), if_neg hc]
        have h1 : a + 1 + n = a + (n + 1) := by omega
        have h2 : s + 1 + n = s + (n + 1) := by omega
        rw [h1, h2]
    · have he : a = failN := by omega
      subst he
      rw [fetchGo, if_neg hlt, if_pos (by omega)]
      simp

/-- C2: the Fetcher's retry bound.  Against a fetch that fails its first
    `N` attempts and succeeds afterwards, the document succeeds iff
    `N < 10`; on success `N + 1` attempts ran with one backoff sleep per
    failure, on exhaustion exactly 10 attempts ran, each followed by a
    sleep; and the corpus loop always continues with the next document. -/
theorem fetcher_retry_bound :
    ∀ N : Nat,
      ((runFetch N).succ = true ↔ N < 10) ∧
      (runFetch N).attempts = min (N + 1) 10 ∧
      (runFetch N).sleeps = min N 10 ∧
      ∀ docs : List Nat,
        corpusRun (N :: docs) = (runFetch N).succ :: corpusRun docs := by
  intro N
  have h : runFetch N = if N < 10 then ⟨true, N + 1, N⟩ else ⟨false, 10, 10⟩ := by
    rw [runFetch, fetchGo_closed N 10 0 0 (Nat.zero_le N)]
    by_cases hN : N < 10
    · rw [if_pos (by omega), if_pos hN]
      simp
    · rw [if_neg (by omega), if_neg hN]
  refine ⟨?_, ?_, ?_, fun docs => rfl⟩ <;> rw [h] <;>
    by_cases hN : N < 10 <;> simp [hN] <;> omega

/-- Witness for the retry bound: 3 failures succeed (4 attempts,
    3 sleeps); 12 failures exhaust the 10 attempts with 10 sleeps. -/
theorem fetcher_retry_bound_witness :
    (runFetch 3).succ = true ∧
    (runFetch 12).attempts = 10 ∧ (runFetch 12).sleeps = 10 :=
  ⟨(fetcher_retry_bound 3).1.mpr (by decide),
   by simpa using (fetcher_retry_bound 12).2.1,
   by simpa using (fetcher_retry_bound 12).2.2.1⟩

/-- Sentinel insertions of the span loop after the first block is known:
    one insertion per adjacent block change. -/
theorem segmentGo_count_some :
    ∀ (spans : List (String × Nat)) (a : Nat) (t : String) (k : Nat),
      (∀ sp ∈ spans, normalizePart sp.1 ≠ "") →
      (segmentGo spans (some a) t k).2 = k + blockChangesFrom a (spans.map Prod.snd) := by
  intro spans
  induction spans with
  | nil => intro a t k _; simp [segmentGo, blockChangesFrom]
  | cons sp rest ih =>
    intro a t k h
    have hp : normalizePart sp.1 ≠ "" := h sp (by simp)
    have hrest : ∀ x ∈ rest, normalizePart x.1 ≠ "" := fun x hx => h x (by simp [hx])
    rw [segmentGo, if_neg hp]
    simp only [Option.getD_some]
    by_cases hb : sp.2 = a
    · rw [if_neg (by simp [hb]), ih sp.2 _ k hrest]
      simp [blockChangesFrom, hb]
    · rw [if_pos hb, ih sp.2 _ (k + 1) hrest]
      have ha : a ≠ sp.2 := fun e => hb e.symm
      simp [blockChangesFrom, ha]
      omega

/-- C8: Segmenter sentinel count.  For spans that all normalize to
    non-empty text, the number of sentinel insertions equals the number of
    adjacent enclosing-block changes (none before the first span), and it
    depends only on the block sequence, not on the span text. -/
theorem segmenter_sentinel_count :
    ∀ spans : List (String × Nat), (∀ sp ∈ spans, normalizePart sp.1 ≠ "") →
      (segmentSpans spans).2 = blockChanges (spans.map Prod.snd) ∧
      ∀ spans' : List (String × Nat), (∀ sp ∈ spans', normalizePart sp.1 ≠ "") →
        spans'.map Prod.snd = spans.map Prod.snd →
        (segmentSpans spans').2 = (segmentSpans spans).2 := by
  have main : ∀ spans : List (String × Nat), (∀ sp ∈ spans, normalizePart sp.1 ≠ "") →
      (segmentSpans spans).2 = blockChanges (spans.map Prod.snd) := by
    intro spans h
    match spans, h with
    | [], _ => simp [segmentSpans, segmentGo, blockChanges]
    | sp :: rest, h =>
      have hp : normalizePart sp.1 ≠ "" := h sp (by simp)
      have hrest : ∀ x ∈ rest, normalizePart x.1 ≠ "" := fun x hx => h x (by simp [hx])
      rw [segmentSpans, segmentGo, if_neg hp]
      simp only [Option.getD_none]
      rw [if_neg (by simp), segmentGo_count_some rest sp.2 _ 0 hrest]
      simp [blockChanges]
  intro spans h
  exact ⟨main spans h, fun spans' h' hmap => by
    rw [main spans' h', main spans h, hmap]⟩

/-- Witness for the sentinel count: three spans over blocks `0,1,1` get
    exactly one sentinel, independently of their text. -/
theorem segmenter_sentinel_count_witness :
    (segmentSpans [("x", 0), ("y", 1), ("z", 1)]).2 =
      blockChanges ([("x", 0), ("y", 1), ("z", 1)].map Prod.snd) ∧
    (segmentSpans [("aa", 0), ("bb", 1), ("cc", 1)]).2 =
      (segmentSpans [("x", 0), ("y", 1), ("z", 1)]).2 :=
  ⟨(segmenter_sentinel_count [("x", 0), ("y", 1), ("z", 1)] (by decide)).1,
   (segmenter_sentinel_count [("x", 0), ("y", 1), ("z", 1)] (by decide)).2
     [("aa", 0), ("bb", 1), ("cc", 1)] (by decide) (by decide)⟩

/-- C9 (amended): the spacy backend performs exactly one model load per
    invocation - one per document - so the number of loads equals the
    number of documents, not the number of distinct languages. -/
theorem spacy_load_per_call :
    ∀ (models : String → String) (docs : List (String × List SpacyTok × String)),
      corpusSpacyLoads models docs = docs.map (fun d => models d.1) ∧
      (corpusSpacyLoads models docs).length = docs.length := by
  intro models docs
  have h : corpusSpacyLoads models docs = docs.map (fun d => models d.1) := by
    induction docs with
    | nil => rfl
    | cons d ds ih =>
      simp only [corpusSpacyLoads, catMap, spacyLoadsForCall, List.map_cons] at *
      rw [ih]
      rfl
  exact ⟨h, by rw [h, List.length_map]⟩

/-- Newline count of a rendered line list whose individual lines contain
    no newline: one per line. -/
theorem countNL_renderLines :
    ∀ L : List VLine, (∀ l ∈ L, (renderLine l).data.count '\n' = 0) →
      countNL (renderLines L) = L.length := by
  intro L
  induction L with
  | nil => intro _; rfl
  | cons l ls ih =>
    intro h
    have hl : (renderLine l).data.count '\n' = 0 := h l (by simp)
    have hls := ih (fun x hx => h x (by simp [hx]))
    rw [renderLines]
    unfold countNL at *
    rw [String.data_append, String.data_append, List.count_append, List.count_append, hl, hls]
    simp [String.data]
    omega

/-- C10 (amended): per document, the token statistic grows by the number
    of lines of the formatted output - token lines, structural tags and
    glue lines alike, since line 148 counts newlines - while the download
    and nlp statistics grow by exactly this document's own durations. -/
theorem token_stat_amended :
    ∀ (st : RunStats) (dl nl : ℚ) (L : List VLine),
      (∀ l ∈ L, (renderLine l).data.count '\n' = 0) →
      (processTeiStats st dl nl (renderLines L)).tokens = st.tokens + L.length ∧
      (processTeiStats st dl nl (renderLines L)).download = st.download + dl ∧
      (processTeiStats st dl nl (renderLines L)).nlp = st.nlp + nl := by
  intro st dl nl L h
  refine ⟨?_, rfl, rfl⟩
  simp [processTeiStats, countNL_renderLines L h]

/-- Witness for the statistics update on a tiny three-line output. -/
theorem token_stat_amended_witness :
    (processTeiStats ⟨1, 2, 3⟩ 4 5
        (renderLines [VLine.pOpen, VLine.tok "a" "b" "c" "", VLine.pClose])).tokens
      = 3 + [VLine.pOpen, VLine.tok "a" "b" "c" "", VLine.pClose].length ∧
    (processTeiStats ⟨1, 2, 3⟩ 4 5
        (renderLines [VLine.pOpen, VLine.tok "a" "b" "c" "", VLine.pClose])).download
      = 1 + 4 ∧
    (processTeiStats ⟨1, 2, 3⟩ 4 5
        (renderLines [VLine.pOpen, VLine.tok "a" "b" "c" "", VLine.pClose])).nlp
      = 2 + 5 :=
  token_stat_amended ⟨1, 2, 3⟩ 4 5
    [VLine.pOpen, VLine.tok "a" "b" "c" "", VLine.pClose] (by decide)

/-- A non-`o` head passes through the pair removal unchanged. -/
theorem stripPair_cons_ne {o c x : VLine} (h : x ≠ o) (l : List VLine) :
    stripPair o c (x :: l) = x :: stripPair o c l := by
  cases l with
  | nil => simp [stripPair, stripGo, h]
  | cons y rest => simp [stripPair, stripGo, h]

/-- An adjacent `o`,`c` pair at the front is removed and scanning resumes
    after it. -/
theorem stripPair_pair (o c : VLine) (l : List VLine) :
    stripPair o c (o :: c :: l) = stripPair o c l := by
  simp [stripPair, stripGo]

/-- An `o` not followed by `c` is kept and scanning resumes at the next
    element. -/
theorem stripPair_cons_o {o c y : VLine} (h : y ≠ c) (l : List VLine) :
    stripPair o c (o :: y :: l) = o :: stripPair o c (y :: l) := by
  by_cases hy : y = o
  · subst hy
    simp [stripPair, stripGo, h]
  · simp [stripPair, stripGo, h, hy]

/-- Pair removal passes over a block that contains no `o` at all. -/
theorem stripPair_append_no_o {o c : VLine} :
    ∀ (h1 : List VLine), (∀ x ∈ h1, x ≠ o) → ∀ t : List VLine,
      stripPair o c (h1 ++ t) = h1 ++ stripPair o c t := by
  intro h1
  induction h1 with
  | nil => intro _ t; rfl
  | cons x xs ih =>
    intro h t
    rw [List.cons_append, stripPair_cons_ne (h x (by simp)),
      ih (fun y hy => h y (by simp [hy])) t]
    rfl

/-- Pair removal only deletes elements, so membership is preserved
    backwards. -/
theorem mem_of_mem_stripGo {o c : VLine} :
    ∀ (l : List VLine) (held : Bool) (x : VLine),
      x ∈ stripGo o c held l → x ∈ l ∨ (held = true ∧ x = o) := by
  intro l
  induction l with
  | nil =>
    intro held x hx
    cases held with
    | false => simp [stripGo] at hx
    | true =>
      simp [stripGo] at hx
      exact Or.inr ⟨rfl, hx⟩
  | cons y rest ih =>
    intro held x hx
    cases held with
    | true =>
      rw [stripGo] at hx
      by_cases hc : y = c
      · rw [if_pos rfl, if_pos hc] at hx
        rcases ih false x hx with h | h
        · exact Or.inl (by simp [h])
        · exact absurd h.1 (by simp)
      · rw [if_pos rfl, if_neg hc] at hx
        by_cases ho : y = o
        · rw [if_pos ho] at hx
          rcases List.mem_cons.mp hx with h | h
          · exact Or.inr ⟨rfl, h⟩
          · rcases ih true x h with h2 | h2
            · exact Or.inl (by simp [h2])
            · exact Or.inr ⟨rfl, h2.2⟩
        · rw [if_neg ho] at hx
          rcases List.mem_cons.mp hx with h | h
          · exact Or.inr ⟨rfl, h⟩
          · rcases List.mem_cons.mp h with h2 | h2
            · exact Or.inl (by simp [h2])
            · rcases ih false x h2 with h3 | h3
              · exact Or.inl (by simp [h3])
              · exact absurd h3.1 (by simp)
    | false =>
      rw [stripGo] at hx
      by_cases ho : y = o
      · rw [if_neg (by simp), if_pos ho] at hx
        rcases ih true x hx with h | h
        · exact Or.inl (by simp [h])
        · exact Or.inl (by simp [ho ▸ h.2])
      · rw [if_neg (by simp), if_neg ho] at hx
        rcases List.mem_cons.mp hx with h | h
        · exact Or.inl (by simp [h])
        · rcases ih false x h with h2 | h2
          · exact Or.inl (by simp [h2])
          · exact absurd h2.1 (by simp)

/-- Membership after both removal passes implies membership before. -/
theorem mem_of_mem_postProcess {x : VLine} {l : List VLine}
    (h : x ∈ postProcess l) : x ∈ l := by
  unfold postProcess stripPair at h
  rcases mem_of_mem_stripGo _ false x h with h1 | h1
  · rcases mem_of_mem_stripGo l false x h1 with h2 | h2
    · exact h2
    · exact absurd h2.1 (by simp)
  · exact absurd h1.1 (by simp)

/-- Unpacking a non-skipped record: neither comment/blank nor short. -/
theorem udpSkip_false_elim {line : List Char} (h : udpSkipRec line = false) :
    ¬(line.head? = some '#' ∨ line.all wsChar) ∧
      ¬((splitOnChar '\t' line).length < 10) := by
  simp only [udpSkipRec] at h
  split at h
  next h1 => exact absurd h (by simp)
  next h1 =>
    split at h
    next h2 => exact absurd h (by simp)
    next h2 => exact ⟨h1, h2⟩

/-- A skipped record contributes no lines. -/
theorem udpChunk_of_skip {line : List Char} (h : udpSkipRec line = true)
    (suffix : String) : udpChunk suffix line = [] := by
  simp only [udpSkipRec] at h
  simp only [udpChunk]
  split at h
  next h1 => rw [if_pos h1]
  next h1 =>
    rw [if_neg h1]
    split at h
    next h2 => rw [if_pos h2]
    next h2 => exact absurd h (by simp)

/-- A sentinel record contributes exactly a paragraph break. -/
theorem udpChunk_of_sent {line : List Char} (h1 : udpSkipRec line = false)
    (h2 : udpSentRec line = true) (suffix : String) :
    udpChunk suffix line = parBreak := by
  obtain ⟨hA, hB⟩ := udpSkip_false_elim h1
  simp only [udpSentRec, if_neg hA, if_neg hB] at h2
  simp only [udpChunk, if_neg hA, if_neg hB]
  rw [if_pos (of_decide_eq_true h2)]

/-- A kept non-sentinel record contributes one token line, with a glue
    line exactly when field 9 carries the flag. -/
theorem udpChunk_of_tok {line : List Char} (h1 : udpSkipRec line = false)
    (h2 : udpSentRec line = false) (suffix : String) :
    udpChunk suffix line =
      VLine.tok ⟨(splitOnChar '\t' line).getD 1 []⟩
          ⟨(splitOnChar '\t' line).getD 2 []⟩
          ⟨(splitOnChar '\t' line).getD 3 []⟩ suffix ::
        (if hasSub spaceAfterNoPat ((splitOnChar '\t' line).getD 9 [])
         then [VLine.glue] else []) := by
  obtain ⟨hA, hB⟩ := udpSkip_false_elim h1
  simp only [udpSentRec, if_neg hA, if_neg hB] at h2
  simp only [udpChunk, if_neg hA, if_neg hB]
  rw [if_neg (of_decide_eq_false h2)]

/-- The group list of a payload is never empty. -/
theorem udpGroups_ne_nil (suffix : String) :
    ∀ ls : List (List Char), udpGroups suffix ls ≠ [] := by
  intro ls
  induction ls with
  | nil => simp [udpGroups]
  | cons l ls ih =>
    simp only [udpGroups]
    split
    · exact ih
    · split <;> simp

/-- Every line inside a group is content (a token or glue line). -/
theorem udpGroups_content (suffix : String) :
    ∀ ls : List (List Char), ∀ g ∈ udpGroups suffix ls, ∀ x ∈ g,
      x.isContentB = true := by
  intro ls
  induction ls with
  | nil =>
    intro g hg x hx
    simp [udpGroups] at hg
    subst hg
    simp at hx
  | cons l ls ih =>
    intro g hg x hx
    simp only [udpGroups] at hg
    by_cases hskip : udpSkipRec l = true
    · rw [if_pos hskip] at hg
      exact ih g hg x hx
    · rw [if_neg hskip] at hg
      by_cases hsent : udpSentRec l = true
      · rw [if_pos hsent] at hg
        rcases List.mem_cons.mp hg with h | h
        · subst h; simp at hx
        · exact ih g h x hx
      · rw [if_neg hsent] at hg
        rcases List.mem_cons.mp hg with h | h
        · subst h
          rcases List.mem_append.mp hx with h2 | h2
          · rw [udpChunk_of_tok (Bool.of_not_eq_true hskip)
              (Bool.of_not_eq_true hsent) suffix] at h2
            rcases List.mem_cons.mp h2 with h3 | h3
            · subst h3; rfl
            · split at h3 <;> simp at h3
              subst h3; rfl
          · have hhead := (udpGroups_ne_nil suffix ls)
            rcases hgs : udpGroups suffix ls with _ | ⟨g0, gs⟩
            · exact absurd hgs hhead
            · rw [hgs] at h2
              simp only [List.headD_cons] at h2
              exact ih g0 (by rw [hgs]; simp) x h2
        · have hhead := (udpGroups_ne_nil suffix ls)
          rcases hgs : udpGroups suffix ls with _ | ⟨g0, gs⟩
          · exact absurd hgs hhead
          · rw [hgs] at h
            simp only [List.tail_cons] at h
            exact ih g (by rw [hgs]; simp [h]) x hx

/-- Decomposition of the formatter output into paragraph segments: the
    whole `run_udp` line list is the concatenation of one `segP` segment
    per paragraph group. -/
theorem udp_decomp (suffix : String) :
    ∀ ls : List (List Char),
      VLine.pOpen :: VLine.sOpen ::
          (catMap (udpChunk suffix) ls ++ [VLine.sClose, VLine.pClose]) =
        catMap segP (udpGroups suffix ls) := by
  intro ls
  induction ls with
  | nil => simp [udpGroups, catMap, segP]
  | cons l ls ih =>
    simp only [udpGroups, catMap]
    by_cases hskip : udpSkipRec l = true
    · rw [if_pos hskip, udpChunk_of_skip hskip suffix]
      simpa using ih
    · rw [if_neg hskip]
      by_cases hsent : udpSentRec l = true
      · rw [if_pos hsent, udpChunk_of_sent (Bool.of_not_eq_true hskip) hsent suffix]
        simp only [catMap, segP, parBreak]
        rw [← ih]
        simp
      · rw [if_neg hsent]
        rcases hgs : udpGroups suffix ls with _ | ⟨g0, gs⟩
        · exact absurd hgs (udpGroups_ne_nil suffix ls)
        · rw [hgs] at ih
          simp only [catMap, segP] at ih ⊢
          simp only [List.headD_cons, List.tail_cons]
          have htail : catMap (udpChunk suffix) ls ++ [VLine.sClose, VLine.pClose] =
              (g0 ++ [VLine.sClose, VLine.pClose]) ++ catMap segP gs := by
            have h2 := ih
            simp only [List.cons_append, List.cons.injEq, true_and] at h2
            simpa using h2
          rw [List.append_assoc, htail]
          simp

/-- Content lines are none of the four structural tags. -/
theorem content_ne_tags {x : VLine} (h : x.isContentB = true) :
    x ≠ VLine.pOpen ∧ x ≠ VLine.pClose ∧ x ≠ VLine.sOpen ∧ x ≠ VLine.sClose := by
  cases x <;> simp_all [VLine.isContentB]

/-- First removal pass over the segment concatenation: paragraphs whose
    group is empty collapse to a bare `<p>`,`</p>` pair, the others are
    untouched. -/
theorem stripS_groups :
    ∀ gs : List (List VLine), (∀ g ∈ gs, ∀ x ∈ g, x.isContentB = true) →
      stripPair VLine.sOpen VLine.sClose (catMap segP gs) =
        catMap (fun g => if g = [] then [VLine.pOpen, VLine.pClose] else segP g) gs := by
  intro gs
  induction gs with
  | nil => intro _; rfl
  | cons g rest ih =>
    intro h
    have hg : ∀ x ∈ g, x.isContentB = true := h g (by simp)
    have hrest : ∀ g' ∈ rest, ∀ x ∈ g', x.isContentB = true :=
      fun g' hg' => h g' (by simp [hg'])
    simp only [catMap, segP, List.cons_append, List.append_assoc, List.nil_append]
    rw [stripPair_cons_ne (by simp)]
    cases g with
    | nil =>
      simp only [List.nil_append, List.cons_append]
      rw [stripPair_pair, stripPair_cons_ne (by simp), ih hrest]
      simp [segP]
    | cons y g' =>
      have hy : y.isContentB = true := hg y (by simp)
      simp only [List.cons_append]
      rw [stripPair_cons_o (content_ne_tags hy).2.2.2]
      have hno : ∀ x ∈ y :: g', x ≠ VLine.sOpen :=
        fun x hx => (content_ne_tags (hg x hx)).2.2.1
      rw [← List.cons_append, stripPair_append_no_o (y :: g') hno,
        stripPair_cons_ne (by simp), stripPair_cons_ne (by simp), ih hrest]
      simp [segP]

/-- Second removal pass: the bare `<p>`,`</p>` pairs of empty groups are
    deleted, leaving exactly the segments of the non-empty groups. -/
theorem stripP_groups :
    ∀ gs : List (List VLine), (∀ g ∈ gs, ∀ x ∈ g, x.isContentB = true) →
      stripPair VLine.pOpen VLine.pClose
          (catMap (fun g => if g = [] then [VLine.pOpen, VLine.pClose] else segP g) gs) =
        catMap segP (gs.filter (fun g => !g.isEmpty)) := by
  intro gs
  induction gs with
  | nil => intro _; rfl
  | cons g rest ih =>
    intro h
    have hg : ∀ x ∈ g, x.isContentB = true := h g (by simp)
    have hrest : ∀ g' ∈ rest, ∀ x ∈ g', x.isContentB = true :=
      fun g' hg' => h g' (by simp [hg'])
    cases g with
    | nil =>
      simp only [catMap, eq_self_iff_true, if_true, List.cons_append, List.nil_append]
      rw [stripPair_pair, ih hrest]
      simp
    | cons y g' =>
      simp only [catMap]
      rw [if_neg (by simp)]
      rw [show segP (y :: g') =
            VLine.pOpen :: VLine.sOpen :: ((y :: g') ++ [VLine.sClose, VLine.pClose])
          from rfl]
      simp only [List.cons_append, List.append_assoc, List.nil_append]
      rw [stripPair_cons_o (by simp)]
      rw [stripPair_cons_ne (by simp)]
      have hno : ∀ x ∈ y :: g', x ≠ VLine.pOpen :=
        fun x hx => (content_ne_tags (hg x hx)).1
      rw [← List.cons_append, stripPair_append_no_o (y :: g') hno,
        stripPair_cons_ne (by simp), stripPair_cons_ne (by simp), ih hrest]
      simp [List.filter_cons, segP]

/-- A content block followed by the sentence/paragraph closers has no
    empty pair anywhere. -/
theorem chain_content_tail :
    ∀ g : List VLine, (∀ x ∈ g, x.isContentB = true) →
      List.Chain' OkPair (g ++ [VLine.sClose, VLine.pClose]) := by
  intro g
  induction g with
  | nil =>
    intro _
    simp [List.chain'_cons, OkPair]
  | cons y g' ih =>
    intro h
    have hy := content_ne_tags (h y (by simp))
    rw [List.cons_append]
    refine List.chain'_cons'.mpr ⟨fun z _ => ?_, ih (fun x hx => h x (by simp [hx]))⟩
    exact ⟨fun he => absurd he.1 hy.2.2.1, fun he => absurd he.1 hy.1⟩

/-- No empty sentence or paragraph pair inside the segment concatenation
    of non-empty content groups. -/
theorem chainOk_groups :
    ∀ gs : List (List VLine),
      (∀ g ∈ gs, g ≠ [] ∧ ∀ x ∈ g, x.isContentB = true) →
      List.Chain' OkPair (catMap segP gs) := by
  intro gs
  induction gs with
  | nil => intro _; simp [catMap]
  | cons g rest ih =>
    intro h
    obtain ⟨hne, hg⟩ := h g (by simp)
    have hrest := ih (fun g' hg' => h g' (by simp [hg']))
    simp only [catMap]
    refine List.Chain'.append ?_ hrest ?_
    · cases g with
      | nil => exact absurd rfl hne
      | cons y g' =>
        have hy := content_ne_tags (hg y (by simp))
        refine List.chain'_cons.mpr ⟨⟨by simp, by simp⟩, ?_⟩
        refine List.chain'_cons'.mpr ⟨fun z hz => ?_, ?_⟩
        · simp only [List.cons_append, List.head?_cons, Option.mem_def,
            Option.some.injEq] at hz
          subst hz
          exact ⟨fun he => absurd he.2 hy.2.2.2, by simp⟩
        · exact chain_content_tail (y :: g') hg
    · intro x hx z _
      have : (segP g).getLast? = some VLine.pClose := by
        simp only [segP]
        rw [show VLine.pOpen :: VLine.sOpen :: (g ++ [VLine.sClose, VLine.pClose]) =
              (VLine.pOpen :: VLine.sOpen :: (g ++ [VLine.sClose])) ++ [VLine.pClose] by simp,
          List.getLast?_concat]
      rw [this] at hx
      simp only [Option.mem_def, Option.some.injEq] at hx
      subst hx
      exact ⟨by simp, by simp⟩

/-- C6: no empty structural elements.  For every payload and suffix - in
    particular streams with a sentinel first, last, or several in a row -
    the post-processed chapter body contains no `<s>` line directly
    followed by a `</s>` line and no `<p>` line directly followed by a
    `</p>` line. -/
theorem no_empty_structural_elements :
    ∀ result suffix : String,
      NoEmptyAdj (postProcess (runUdpLines result suffix)) := by
  intro result suffix
  have hcontent := udpGroups_content suffix (splitOnChar '\n' result.data)
  have hdec := udp_decomp suffix (splitOnChar '\n' result.data)
  unfold NoEmptyAdj postProcess
  rw [show runUdpLines result suffix =
        catMap segP (udpGroups suffix (splitOnChar '\n' result.data)) from hdec]
  rw [stripS_groups _ hcontent, stripP_groups _ hcontent]
  refine chainOk_groups _ ?_
  intro g hgf
  have hmem := List.mem_filter.mp hgf
  refine ⟨by simpa using hmem.2, hcontent g hmem.1⟩

/-- Membership in a loop concatenation comes from one iteration. -/
theorem mem_catMap {α β : Type} {x : β} {f : α → List β} :
    ∀ {ls : List α}, x ∈ catMap f ls → ∃ l ∈ ls, x ∈ f l := by
  intro ls
  induction ls with
  | nil => intro h; simp [catMap] at h
  | cons l rest ih =>
    intro h
    rcases List.mem_append.mp h with h1 | h1
    · exact ⟨l, by simp, h1⟩
    · obtain ⟨l', hl', hx⟩ := ih h1
      exact ⟨l', by simp [hl'], hx⟩

/-- A record recognized as skipped is not a sentinel record. -/
theorem udpSent_false_of_skip {line : List Char} (h : udpSkipRec line = true) :
    udpSentRec line = false := by
  simp only [udpSkipRec] at h
  simp only [udpSentRec]
  split at h
  next h1 => rw [if_pos h1]
  next h1 =>
    rw [if_neg h1]
    split at h
    next h2 => rw [if_pos h2]
    next h2 => exact absurd h (by simp)

/-- Paragraph-opener count of the loop body: one per sentinel record. -/
theorem udp_catMap_count_pOpen (suffix : String) :
    ∀ ls : List (List Char),
      (catMap (udpChunk suffix) ls).count VLine.pOpen = ls.countP udpSentRec := by
  intro ls
  induction ls with
  | nil => rfl
  | cons l rest ih =>
    simp only [catMap, List.count_append, List.countP_cons, ih]
    by_cases hskip : udpSkipRec l = true
    · rw [udpChunk_of_skip hskip, udpSent_false_of_skip hskip]
      simp
    · by_cases hsent : udpSentRec l = true
      · rw [udpChunk_of_sent (Bool.of_not_eq_true hskip) hsent, hsent]
        simp [parBreak]
        omega
      · rw [udpChunk_of_tok (Bool.of_not_eq_true hskip) (Bool.of_not_eq_true hsent),
          Bool.of_not_eq_true hsent]
        split <;> simp

/-- In the spacy loop output, no token line carries the sentinel as its
    surface form: a sentinel-surfaced token takes the paragraph-break
    branch (line 96) instead of the token-line branch. -/
theorem spacy_no_sentinel_tok (suffix : String) :
    ∀ (toks : List SpacyTok) (text : List Char) (sent : Option Nat)
      (a b c d : String),
      VLine.tok a b c d ∈ runSpacyGo suffix toks text sent → a ≠ PAR_SEP := by
  intro toks
  induction toks with
  | nil =>
    intro text sent a b c d h
    simp [runSpacyGo] at h
  | cons t ts ih =>
    intro text sent a b c d h
    rw [runSpacyGo] at h
    by_cases hsp : t.isSpace = true
    · rw [if_pos hsp] at h
      exact ih text sent a b c d h
    · rw [if_neg hsp] at h
      rcases List.mem_append.mp h with h1 | h1
      · split at h1 <;> simp at h1
      rcases List.mem_append.mp h1 with h2 | h2
      · split at h2 <;> simp at h2
      rcases List.mem_append.mp h2 with h3 | h3
      · by_cases hps : t.text = PAR_SEP
        · rw [if_pos hps] at h3
          simp [parBreak] at h3
        · rw [if_neg hps] at h3
          simp only [List.mem_singleton, VLine.tok.injEq] at h3
          intro he
          exact hps (h3.1 ▸ he)
      · exact ih _ _ a b c d h3

/-- Paragraph-opener count of the spacy loop: one per non-space token
    whose surface form equals the sentinel. -/
theorem spacy_count_pOpen (suffix : String) :
    ∀ (toks : List SpacyTok) (text : List Char) (sent : Option Nat),
      (runSpacyGo suffix toks text sent).count VLine.pOpen =
        toks.countP (fun t => !t.isSpace && t.text == PAR_SEP) := by
  intro toks
  induction toks with
  | nil =>
    intro text sent
    simp [runSpacyGo]
  | cons t ts ih =>
    intro text sent
    rw [runSpacyGo]
    simp only [List.countP_cons]
    by_cases hsp : t.isSpace = true
    · rw [if_pos hsp, ih text sent]
      simp [hsp]
    · rw [if_neg hsp]
      have hspf : t.isSpace = false := Bool.of_not_eq_true hsp
      simp only [List.count_append]
      rw [ih ((text.dropWhile wsChar).drop t.text.length) (some t.sentId)]
      have h1 : (if sent.getD t.sentId = t.sentId then ([] : List VLine)
          else [VLine.sClose, VLine.sOpen]).count VLine.pOpen = 0 := by
        split <;> simp
      have h2 : (if !startsWs text && t.isPunct then [VLine.glue]
          else ([] : List VLine)).count VLine.pOpen = 0 := by
        split <;> simp
      rw [h1, h2]
      by_cases hps : t.text = PAR_SEP
      · rw [if_pos hps]
        simp [parBreak, hspf, hps]
        omega
      · rw [if_neg hps]
        simp [hspf, hps]

/-- C7 (amended): in both backends the sentinel never appears as the
    surface form of a token line in the post-processed output, and the
    number of `<p>` openers is exactly one more than the number of
    records (udp) or non-space tokens (spacy) whose surface form equals
    the sentinel - whether the Segmenter inserted that sentinel or it was
    a genuine document word (collision-freedom of the reserved string is
    assumed, not enforced). -/
theorem sentinel_handling_amended :
    (∀ result suffix : String,
      (∀ a b c d : String,
        VLine.tok a b c d ∈ postProcess (runUdpLines result suffix) → a ≠ PAR_SEP) ∧
      (runUdpLines result suffix).count VLine.pOpen =
        1 + (splitOnChar '\n' result.data).countP udpSentRec) ∧
    (∀ (toks : List SpacyTok) (raw suffix : String),
      (∀ a b c d : String,
        VLine.tok a b c d ∈ postProcess (runSpacyLines toks raw suffix) → a ≠ PAR_SEP) ∧
      (runSpacyLines toks raw suffix).count VLine.pOpen =
        1 + toks.countP (fun t => !t.isSpace && t.text == PAR_SEP)) := by
  constructor
  case right =>
    intro toks raw suffix
    constructor
    · intro a b c d hmem
      have h1 : VLine.tok a b c d ∈ runSpacyLines toks raw suffix :=
        mem_of_mem_postProcess hmem
      simp only [runSpacyLines] at h1
      rcases List.mem_cons.mp h1 with h2 | h2
      · exact absurd h2 (by simp)
      rcases List.mem_cons.mp h2 with h3 | h3
      · exact absurd h3 (by simp)
      exact spacy_no_sentinel_tok suffix toks raw.data none a b c d h3
    · simp only [runSpacyLines, List.count_cons,
        spacy_count_pOpen suffix toks raw.data none]
      simp
      omega
  intro result suffix
  constructor
  · intro a b c d hmem
    have h1 : VLine.tok a b c d ∈ runUdpLines result suffix :=
      mem_of_mem_postProcess hmem
    simp only [runUdpLines] at h1
    rcases List.mem_cons.mp h1 with h2 | h2
    · exact absurd h2 (by simp)
    rcases List.mem_cons.mp h2 with h3 | h3
    · exact absurd h3 (by simp)
    rcases List.mem_append.mp h3 with h4 | h4
    · obtain ⟨l, _, hxl⟩ := mem_catMap h4
      by_cases hskip : udpSkipRec l = true
      · rw [udpChunk_of_skip hskip] at hxl
        exact absurd hxl (by simp)
      · by_cases hsent : udpSentRec l = true
        · rw [udpChunk_of_sent (Bool.of_not_eq_true hskip) hsent] at hxl
          exact absurd hxl (by simp [parBreak])
        · rw [udpChunk_of_tok (Bool.of_not_eq_true hskip)
            (Bool.of_not_eq_true hsent)] at hxl
          have hA := udpSkip_false_elim (Bool.of_not_eq_true hskip)
          have hC : ¬((splitOnChar '\t' l).getD 1 [] = PAR_SEP.data) := by
            have := Bool.of_not_eq_true hsent
            simp only [udpSentRec, if_neg hA.1, if_neg hA.2] at this
            exact of_decide_eq_false this
          rcases List.mem_cons.mp hxl with h5 | h5
          · have ha : a = ⟨(splitOnChar '\t' l).getD 1 []⟩ := by
              injection h5
            intro he
            exact hC (congrArg String.data (ha.symm.trans he))
          · split at h5 <;> simp at h5
    · exact absurd h4 (by simp)
  · simp only [runUdpLines, List.count_cons, List.count_append,
      udp_catMap_count_pOpen suffix]
    simp
    omega

set_option maxRecDepth 40000 in
/-- Witness for the amended sentinel handling, on both backends: the
    `Hello` token line of the end-to-end udp payload and the `a` token
    line of the spacy collision stream survive with non-sentinel
    surfaces, and each backend's paragraph count is one more than its
    sentinel-token count. -/
theorem sentinel_handling_amended_witness :
    ("Hello" : String) ≠ PAR_SEP ∧
    (runUdpLines examplePayload "\tU").count VLine.pOpen =
      1 + (splitOnChar '\n' examplePayload.data).countP udpSentRec ∧
    ("a" : String) ≠ PAR_SEP ∧
    (runSpacyLines collisionToks "a PaRaSeP b" "\tU").count VLine.pOpen =
      1 + collisionToks.countP (fun t => !t.isSpace && t.text == PAR_SEP) :=
  ⟨(sentinel_handling_amended.1 examplePayload "\tU").1 "Hello" "hello" "INTJ" "\tU"
      (by decide),
   (sentinel_handling_amended.1 examplePayload "\tU").2,
   (sentinel_handling_amended.2 collisionToks "a PaRaSeP b" "\tU").1 "a" "a" "X" "\tU"
      (by decide),
   (sentinel_handling_amended.2 collisionToks "a PaRaSeP b" "\tU").2⟩

/-- A skipped record carries no glue flag. -/
theorem udpGlue_false_of_skip {line : List Char} (h : udpSkipRec line = true) :
    udpGlueRec line = false := by
  simp only [udpSkipRec] at h
  simp only [udpGlueRec]
  split at h
  next h1 => rw [if_pos h1]
  next h1 =>
    rw [if_neg h1]
    split at h
    next h2 => rw [if_pos h2]
    next h2 => exact absurd h (by simp)

/-- A sentinel record carries no glue flag. -/
theorem udpGlue_false_of_sent {line : List Char} (h1 : udpSkipRec line = false)
    (h2 : udpSentRec line = true) : udpGlueRec line = false := by
  obtain ⟨hA, hB⟩ := udpSkip_false_elim h1
  simp only [udpSentRec, if_neg hA, if_neg hB] at h2
  simp only [udpGlueRec, if_neg hA, if_neg hB]
  rw [if_pos (of_decide_eq_true h2)]

/-- On a kept non-sentinel record the glue flag is the feature test. -/
theorem udpGlueRec_of_tok {line : List Char} (h1 : udpSkipRec line = false)
    (h2 : udpSentRec line = false) :
    udpGlueRec line = hasSub spaceAfterNoPat ((splitOnChar '\t' line).getD 9 []) := by
  obtain ⟨hA, hB⟩ := udpSkip_false_elim h1
  simp only [udpSentRec, if_neg hA, if_neg hB] at h2
  simp only [udpGlueRec, if_neg hA, if_neg hB]
  rw [if_neg (of_decide_eq_false h2)]

/-- Glue-line count of the loop body: one per flagged token record. -/
theorem udp_catMap_count_glue (suffix : String) :
    ∀ ls : List (List Char),
      (catMap (udpChunk suffix) ls).count VLine.glue = ls.countP udpGlueRec := by
  intro ls
  induction ls with
  | nil => rfl
  | cons l rest ih =>
    simp only [catMap, List.count_append, List.countP_cons, ih]
    by_cases hskip : udpSkipRec l = true
    · rw [udpChunk_of_skip hskip, udpGlue_false_of_skip hskip]
      simp
    · by_cases hsent : udpSentRec l = true
      · rw [udpChunk_of_sent (Bool.of_not_eq_true hskip) hsent,
          udpGlue_false_of_sent (Bool.of_not_eq_true hskip) hsent]
        simp [parBreak]
      · rw [udpChunk_of_tok (Bool.of_not_eq_true hskip) (Bool.of_not_eq_true hsent),
          udpGlueRec_of_tok (Bool.of_not_eq_true hskip) (Bool.of_not_eq_true hsent)]
        split <;> simp [Nat.add_comm]

/-- In the `run_udp` loop body followed by the closing tags, every glue
    line directly follows a token line, and the whole block never starts
    with a glue line. -/
theorem udp_chain_glueAfter (suffix : String) :
    ∀ ls : List (List Char),
      List.Chain' GlueAfterTok
          (catMap (udpChunk suffix) ls ++ [VLine.sClose, VLine.pClose]) ∧
        (catMap (udpChunk suffix) ls ++ [VLine.sClose, VLine.pClose]).head? ≠
          some VLine.glue := by
  intro ls
  induction ls with
  | nil =>
    constructor
    · simp [catMap, List.chain'_cons, GlueAfterTok]
    · simp [catMap]
  | cons l rest ih =>
    simp only [catMap, List.append_assoc]
    by_cases hskip : udpSkipRec l = true
    · rw [udpChunk_of_skip hskip]
      simpa using ih
    · by_cases hsent : udpSentRec l = true
      · rw [udpChunk_of_sent (Bool.of_not_eq_true hskip) hsent]
        simp only [parBreak, List.cons_append, List.nil_append]
        constructor
        · refine List.chain'_cons'.mpr ⟨fun y hy => ?_, ?_⟩
          · simp only [List.head?_cons, Option.mem_def, Option.some.injEq] at hy
            subst hy
            simp [GlueAfterTok]
          refine List.chain'_cons'.mpr ⟨fun y hy => ?_, ?_⟩
          · simp only [List.head?_cons, Option.mem_def, Option.some.injEq] at hy
            subst hy
            simp [GlueAfterTok]
          refine List.chain'_cons'.mpr ⟨fun y hy => ?_, ?_⟩
          · simp only [List.head?_cons, Option.mem_def, Option.some.injEq] at hy
            subst hy
            simp [GlueAfterTok]
          refine List.chain'_cons'.mpr ⟨fun y hy => ?_, ih.1⟩
          intro he
          subst he
          exact absurd hy ih.2
        · simp
      · rw [udpChunk_of_tok (Bool.of_not_eq_true hskip) (Bool.of_not_eq_true hsent)]
        split
        · simp only [List.cons_append, List.nil_append]
          constructor
          · refine List.chain'_cons'.mpr ⟨fun y hy => ?_, ?_⟩
            · simp only [List.head?_cons, Option.mem_def, Option.some.injEq] at hy
              subst hy
              intro _
              rfl
            refine List.chain'_cons'.mpr ⟨fun y hy => ?_, ih.1⟩
            intro he
            subst he
            exact absurd hy ih.2
          · simp
        · simp only [List.cons_append, List.nil_append]
          constructor
          · refine List.chain'_cons'.mpr ⟨fun y _ => ?_, ih.1⟩
            intro _
            rfl
          · simp

/-- Whether a concatenation starts with whitespace is decided by its
    non-empty left part. -/
theorem startsWs_append_left {l r : List Char} (h : l ≠ []) :
    startsWs (l ++ r) = startsWs l := by
  cases l with
  | nil => exact absurd rfl h
  | cons c cs => rfl

/-- A non-empty all-whitespace prefix makes the text start with
    whitespace. -/
theorem startsWs_of_all_ws {l : List Char} (h : l.all wsChar = true)
    (hne : l ≠ []) : startsWs l = true := by
  cases l with
  | nil => exact absurd rfl hne
  | cons c cs =>
    simp only [List.all_cons, Bool.and_eq_true] at h
    simpa [startsWs] using h.1

/-- Dropping leading whitespace from an all-whitespace padding followed
    by text that starts with a non-whitespace character removes exactly
    the padding. -/
theorem dropWhile_ws_pad {l1 l2 : List Char} (h1 : l1.all wsChar = true)
    (h2 : startsWs l2 = false) (h3 : l2 ≠ []) :
    (l1 ++ l2).dropWhile wsChar = l2 := by
  induction l1 with
  | nil =>
    cases l2 with
    | nil => exact absurd rfl h3
    | cons c cs =>
      simp only [startsWs] at h2
      simp [List.dropWhile_cons, h2]
  | cons c cs ih =>
    simp only [List.all_cons, Bool.and_eq_true] at h1
    simp only [List.cons_append, List.dropWhile_cons, h1.1]
    exact ih h1.2

/-- A string differs from the empty string iff its character list is
    non-empty. -/
theorem data_ne_nil_of_ne_empty {s : String} (h : s ≠ "") : s.data ≠ [] := by
  intro hd
  exact h (by cases s; simp_all)

/-- Glue-line count of the spacy loop on a whitespace-aligned document:
    one glue line per punctuation token with empty preceding padding. -/
theorem spacy_glue_count_aligned (suffix : String) :
    ∀ (pairs : List (String × SpacyTok)) (extra : List Char) (sent : Option Nat),
      (∀ pt ∈ pairs, pt.1.data.all wsChar = true ∧ pt.2.isSpace = false ∧
        pt.2.text ≠ "" ∧ startsWs pt.2.text.data = false) →
      (runSpacyGo suffix (pairs.map Prod.snd) (padsText pairs ++ extra) sent).count
          VLine.glue =
        pairs.countP (fun pt => pt.1 == "" && pt.2.isPunct) := by
  intro pairs
  induction pairs with
  | nil =>
    intro extra sent _
    simp [padsText, catMap, runSpacyGo]
  | cons pt rest ih =>
    intro extra sent h
    obtain ⟨hws, hsp, hne, hst⟩ := h pt (by simp)
    have hrest : ∀ x ∈ rest, x.1.data.all wsChar = true ∧ x.2.isSpace = false ∧
        x.2.text ≠ "" ∧ startsWs x.2.text.data = false :=
      fun x hx => h x (by simp [hx])
    have hdata : pt.2.text.data ≠ [] := data_ne_nil_of_ne_empty hne
    simp only [List.map_cons, padsText, catMap, List.append_assoc]
    rw [runSpacyGo, if_neg (by simp [hsp])]
    have htext1 : ((pt.1.data ++ (pt.2.text.data ++ (catMap
          (fun q => q.1.data ++ q.2.text.data) rest ++ extra))).dropWhile
            wsChar).drop pt.2.text.length =
        catMap (fun q => q.1.data ++ q.2.text.data) rest ++ extra := by
      rw [dropWhile_ws_pad hws
          (by rw [startsWs_append_left hdata]; exact hst)
          (by simp [hdata]),
        show pt.2.text.length = pt.2.text.data.length from rfl,
        ← List.append_assoc]
      rw [show pt.2.text.data ++ (catMap (fun q => q.1.data ++ q.2.text.data) rest) ++
            extra = pt.2.text.data ++ ((catMap (fun q => q.1.data ++ q.2.text.data)
              rest) ++ extra) by simp,
        List.drop_left]
    rw [htext1]
    have hcount := ih extra (some pt.2.sentId) hrest
    simp only [padsText] at hcount
    simp only [List.count_append, List.countP_cons]
    rw [hcount]
    have hbrk0 : (if sent.getD pt.2.sentId = pt.2.sentId then ([] : List VLine)
        else [VLine.sClose, VLine.sOpen]).count VLine.glue = 0 := by
      split <;> simp
    have htok0 : (if pt.2.text = PAR_SEP then parBreak
        else [VLine.tok pt.2.text (if pt.2.isPunct then pt.2.text else pt.2.lemma_)
          pt.2.pos_ suffix]).count VLine.glue = 0 := by
      split <;> simp [parBreak]
    rw [hbrk0, htok0]
    by_cases hp : pt.1 = ""
    · have hpd : pt.1.data = [] := by rw [hp]
      have hsw : startsWs (pt.1.data ++ (pt.2.text.data ++ (catMap
          (fun q => q.1.data ++ q.2.text.data) rest ++ extra))) = false := by
        rw [hpd, List.nil_append, startsWs_append_left hdata]
        exact hst
      rw [hsw]
      by_cases hpunct : pt.2.isPunct = true
      · simp [hpunct, hp, Nat.add_comm]
      · have hpf : pt.2.isPunct = false := Bool.of_not_eq_true hpunct
        simp [hpf]
    · have hpd : pt.1.data ≠ [] := data_ne_nil_of_ne_empty hp
      have hsw : startsWs (pt.1.data ++ (pt.2.text.data ++ (catMap
          (fun q => q.1.data ++ q.2.text.data) rest ++ extra))) = true := by
        rw [startsWs_append_left hpd]
        exact startsWs_of_all_ws hws hpd
      rw [hsw]
      have hbe : (pt.1 == "") = false := by
        simp [hp]
      simp [hbe]

/-- Prepending a non-glue line preserves the glue-precedes-token
    property. -/
theorem glueBefore_cons {x : VLine} (hx : x ≠ VLine.glue) {l : List VLine}
    (hl : List.Chain' GlueBeforeTok l) : List.Chain' GlueBeforeTok (x :: l) :=
  List.chain'_cons'.mpr ⟨fun _ _ he => absurd he hx, hl⟩

/-- In the spacy loop output, provided no punctuation token carries the
    sentinel text, every glue line is directly followed by a token line. -/
theorem spacy_chain_glueBefore (suffix : String) :
    ∀ (toks : List SpacyTok) (text : List Char) (sent : Option Nat),
      (∀ t ∈ toks, t.isPunct = true → t.text ≠ PAR_SEP) →
      List.Chain' GlueBeforeTok (runSpacyGo suffix toks text sent) := by
  intro toks
  induction toks with
  | nil =>
    intro text sent _
    simp [runSpacyGo, List.chain'_cons, GlueBeforeTok]
  | cons t ts ih =>
    intro text sent h
    have ht := h t (by simp)
    have hts : ∀ t' ∈ ts, t'.isPunct = true → t'.text ≠ PAR_SEP :=
      fun t' ht' => h t' (by simp [ht'])
    rw [runSpacyGo]
    by_cases hsp : t.isSpace = true
    · rw [if_pos hsp]
      exact ih text sent hts
    · rw [if_neg hsp]
      have hrec := ih ((text.dropWhile wsChar).drop t.text.length) (some t.sentId) hts
      by_cases hg : (!startsWs text && t.isPunct) = true
      · have hpunct : t.isPunct = true := by
          cases hpt : t.isPunct
          · rw [hpt] at hg; simp at hg
          · rfl
        have hns : t.text ≠ PAR_SEP := ht hpunct
        rw [if_pos hg, if_neg hns, if_pos hpunct]
        have htail : List.Chain' GlueBeforeTok
            (VLine.glue :: VLine.tok t.text t.text t.pos_ suffix ::
              runSpacyGo suffix ts ((text.dropWhile wsChar).drop t.text.length)
                (some t.sentId)) := by
          refine List.chain'_cons.mpr ⟨fun _ => rfl, ?_⟩
          exact glueBefore_cons (by simp) hrec
        split
        · simpa using htail
        · simp only [List.cons_append, List.nil_append]
          exact glueBefore_cons (by simp) (glueBefore_cons (by simp) htail)
      · rw [if_neg hg]
        have htok : List.Chain' GlueBeforeTok
            ((if t.text = PAR_SEP then parBreak
              else [VLine.tok t.text (if t.isPunct then t.text else t.lemma_)
                t.pos_ suffix]) ++
              runSpacyGo suffix ts ((text.dropWhile wsChar).drop t.text.length)
                (some t.sentId)) := by
          split
          · simp only [parBreak, List.cons_append, List.nil_append]
            exact glueBefore_cons (by simp) (glueBefore_cons (by simp)
              (glueBefore_cons (by simp) (glueBefore_cons (by simp) hrec)))
          · simp only [List.cons_append, List.nil_append]
            exact glueBefore_cons (by simp) hrec
        split
        · simpa using htok
        · simp only [List.cons_append, List.nil_append]
          exact glueBefore_cons (by simp) (glueBefore_cons (by simp) (by simpa using htok))

/-- C4 (amended): glue-marker placement as the code implements it.  In
    the udp backend there is exactly one glue line per token record
    flagged `SpaceAfter=No`, and every glue line directly follows a token
    line.  In the spacy backend a glue line is emitted exactly before each
    punctuation token with no whitespace before it in the raw text
    (non-punctuation adjacent pairs get no glue marker), and every glue
    line directly precedes a token line when no punctuation token carries
    the sentinel text. -/
theorem glue_marker_amended :
    (∀ result suffix : String,
      (runUdpLines result suffix).count VLine.glue =
          (splitOnChar '\n' result.data).countP udpGlueRec ∧
        List.Chain' GlueAfterTok (runUdpLines result suffix)) ∧
    (∀ (pairs : List (String × SpacyTok)) (extra : List Char) (raw suffix : String),
      raw.data = padsText pairs ++ extra →
      (∀ pt ∈ pairs, pt.1.data.all wsChar = true ∧ pt.2.isSpace = false ∧
        pt.2.text ≠ "" ∧ startsWs pt.2.text.data = false) →
      (runSpacyLines (pairs.map Prod.snd) raw suffix).count VLine.glue =
        pairs.countP (fun pt => pt.1 == "" && pt.2.isPunct)) ∧
    (∀ (toks : List SpacyTok) (raw suffix : String),
      (∀ t ∈ toks, t.isPunct = true → t.text ≠ PAR_SEP) →
      List.Chain' GlueBeforeTok (runSpacyLines toks raw suffix)) := by
  refine ⟨fun result suffix => ⟨?_, ?_⟩, fun pairs extra raw suffix hraw h => ?_,
    fun toks raw suffix h => ?_⟩
  · simp only [runUdpLines, List.count_cons, List.count_append,
      udp_catMap_count_glue suffix]
    simp
  · have hchain := udp_chain_glueAfter suffix (splitOnChar '\n' result.data)
    simp only [runUdpLines]
    refine List.chain'_cons'.mpr ⟨fun y hy => by simp [GlueAfterTok]; intro he; subst he; simp at hy, ?_⟩
    refine List.chain'_cons'.mpr ⟨fun y hy => ?_, hchain.1⟩
    intro he
    subst he
    exact absurd hy hchain.2
  · simp only [runSpacyLines, hraw, List.count_cons]
    rw [spacy_glue_count_aligned suffix pairs extra none h]
    simp
  · simp only [runSpacyLines]
    exact glueBefore_cons (by simp)
      (glueBefore_cons (by simp) (spacy_chain_glueBefore suffix toks raw.data none h))

/-- Witness for the amended glue placement: an aligned two-token spacy
    document `a.` with a punctuation token directly after a word token
    gets exactly one glue line. -/
theorem glue_marker_amended_witness :
    (runSpacyLines ([("", (⟨"a", "a", "X", 0, false, false⟩ : SpacyTok)),
        ("", ⟨".", ".", "PUNCT", 0, true, false⟩)].map Prod.snd) "a." "").count
      VLine.glue =
    [("", (⟨"a", "a", "X", 0, false, false⟩ : SpacyTok)),
      ("", ⟨".", ".", "PUNCT", 0, true, false⟩)].countP
        (fun pt => pt.1 == "" && pt.2.isPunct) :=
  glue_marker_amended.2.1
    [("", ⟨"a", "a", "X", 0, false, false⟩), ("", ⟨".", ".", "PUNCT", 0, true, false⟩)]
    [] "a." "" (by decide) (by decide)
